import Mathlib

/-!
Verification development for the catalog generator (scripts/generate-catalog.py).

The script scans documentation files (rules, skills, agents, custom entries),
parses a leading YAML-like frontmatter block from each, normalizes descriptions,
and renders a single catalog document, with a write mode and a check mode.

The embedding below translates the script faithfully:
  - Python strings become Lean String / List Char (all inputs of interest are
    ASCII or plain Unicode text; regex character classes are modelled at the
    ASCII level, which covers every literal the script matches against).
  - The regexes FRONTMATTER_RE, STOP_PATTERNS and YAML_KEY_RE are modelled by
    explicit executable matchers with the same semantics (anchored match,
    leftmost search, greedy/lazy groups) on the inputs the script feeds them
    (single lines for YAML_KEY_RE, whole files for FRONTMATTER_RE).
  - Filesystem traversal is abstracted: a scanner receives the list of files
    its glob matched (path components relative to the repository root plus the
    file content) and sorts it itself, mirroring sorted(...) in the source.
  - print(..., file=sys.stderr) becomes an explicit warnings list; sys.exit
    and writing the output file become fields of a result record.
-/

namespace Catalog

/-- Python str whitespace as matched by the regex class backslash-s and by
str.strip / str.split, restricted to ASCII. -/
def isPySpace (c : Char) : Bool :=
  c = ' ' || c = '\t' || c = '\n' || c = '\r' || c = '\x0b' || c = '\x0c'

/-- ASCII word character, the regex class backslash-w. -/
def isWordChar (c : Char) : Bool :=
  ('a' ≤ c && c ≤ 'z') || ('A' ≤ c && c ≤ 'Z') || ('0' ≤ c && c ≤ '9') || c = '_'

def isAsciiAlpha (c : Char) : Bool :=
  ('a' ≤ c && c ≤ 'z') || ('A' ≤ c && c ≤ 'Z')

def asciiLower (c : Char) : Char :=
  if 'A' ≤ c && c ≤ 'Z' then Char.ofNat (c.toNat + 32) else c

def asciiUpper (c : Char) : Char :=
  if 'a' ≤ c && c ≤ 'z' then Char.ofNat (c.toNat - 32) else c

/-- Python str.strip() on char lists. -/
def pyStripData (cs : List Char) : List Char :=
  ((cs.dropWhile isPySpace).reverse.dropWhile isPySpace).reverse

/-- Python str.strip(). -/
def pyStrip (s : String) : String :=
  String.mk (pyStripData s.data)

/-- Helper for pyWords: current word is accumulated reversed. -/
def wordsAux : List Char → List Char → List (List Char)
  | [], cur => if cur.isEmpty then [] else [cur.reverse]
  | c :: rest, cur =>
    if isPySpace c then
      if cur.isEmpty then wordsAux rest [] else cur.reverse :: wordsAux rest []
    else wordsAux rest (c :: cur)

/-- Python str.split() with no argument: words separated by whitespace runs. -/
def pyWords (cs : List Char) : List (List Char) := wordsAux cs []

def joinSpace : List (List Char) → List Char
  | [] => []
  | [w] => w
  | w :: ws => w ++ ' ' :: joinSpace ws

/-- The " ".join(raw.split()) step of the description normalizer: collapse all
whitespace runs (including newlines) to single spaces. -/
def collapseWs (cs : List Char) : List Char := joinSpace (pyWords cs)

/-- Python str.replace(pat, rep): left-to-right, non-overlapping.  A fuel
argument bounding the recursion by the input length keeps the function
structurally recursive; the fuel never runs out when it starts at the
length of the input (a nonempty matched pattern consumes at least one
character per step). -/
def replDataGo (pat rep : List Char) : Nat → List Char → List Char
  | _, [] => []
  | 0, cs => cs
  | n + 1, c :: rest =>
    if pat ≠ [] ∧ pat.isPrefixOf (c :: rest) then
      rep ++ replDataGo pat rep n (List.drop pat.length (c :: rest))
    else
      c :: replDataGo pat rep n rest

def replData (pat rep cs : List Char) : List Char :=
  replDataGo pat rep cs.length cs

/-- Python str.replace on strings. -/
def pyReplace (s pat rep : String) : String :=
  String.mk (replData pat.data rep.data s.data)

/-- Python "\n".join(lines). -/
def joinNl : List String → String
  | [] => ""
  | [x] => x
  | x :: xs => x ++ "\n" ++ joinNl xs

/-- Python raw.split(sep) for the single-character separator newline,
modelled on char lists (always returns at least one piece). -/
def splitNl : List Char → List (List Char)
  | [] => [[]]
  | c :: rest =>
    if c = '\n' then [] :: splitNl rest
    else
      match splitNl rest with
      | h :: t => (c :: h) :: t
      | [] => [[c]]

/-- YAML_KEY_RE, anchored at the start of a line:
a word char, then word chars or hyphens, optional whitespace, a colon,
optional whitespace, then the rest of the line up to a newline (the dot of
the regex does not cross newlines).  Returns the key and group(2). -/
def parseKeyLine (line : String) : Option (String × String) :=
  match line.data with
  | [] => none
  | c :: rest =>
    if isWordChar c then
      let keyChars := c :: rest.takeWhile (fun d => isWordChar d || d = '-')
      let after := rest.dropWhile (fun d => isWordChar d || d = '-')
      match after.dropWhile isPySpace with
      | ':' :: tail =>
        some (String.mk keyChars,
              String.mk ((tail.dropWhile isPySpace).takeWhile (fun d => d != '\n')))
      | _ => none
    else none

/-- Flat string dictionary with Python dict assignment semantics for lookup:
assigning an existing key replaces its value in place. -/
def dictSet : List (String × String) → String → String → List (String × String)
  | [], k, v => [(k, v)]
  | (a, b) :: t, k, v => if a = k then (a, v) :: t else (a, b) :: dictSet t k v

def dictGet : List (String × String) → String → Option String
  | [], _ => none
  | (a, b) :: t, k => if a = k then some b else dictGet t k

/-- The _flush helper: join accumulated lines with newlines and strip. -/
def flushLines (ls : List String) : String := pyStrip (joinNl ls)

/-- Parser state of _parse_yaml_flat. -/
structure YState where
  result : List (String × String)
  currKey : Option String
  currLines : List String
  isMulti : Bool
deriving DecidableEq

def flushInto (st : YState) : List (String × String) :=
  match st.currKey with
  | some k => dictSet st.result k (flushLines st.currLines)
  | none => st.result

/-- Strip surrounding quotes and unescape, exactly as in the source:
if the value is wrapped in matching single or double quotes, drop them and
apply the four replacements in order (double-escaped forms first). -/
def unquoteVal (v : String) : String :=
  match v.data.head?, v.data.getLast? with
  | some c, some d =>
    if 2 ≤ v.data.length ∧ (c = '"' ∨ c = '\x27') ∧ d = c then
      let inner := String.mk ((v.data.drop 1).dropLast)
      pyReplace (pyReplace (pyReplace (pyReplace inner "\\\\n" "\n") "\\n" "\n")
        "\\\\\"" "\"") "\\\"" "\""
    else v
  | _, _ => v

def lineHeadIsSpace (line : String) : Bool := line.data.head? = some ' '

/-- Continuation branch of the line loop: during a multiline value,
append the stripped line; otherwise ignore the line. -/
def contStep (st : YState) (line : String) : YState :=
  if st.isMulti && st.currKey.isSome then
    { st with currLines := st.currLines ++ [pyStrip line] }
  else st

/-- One iteration of the line loop of _parse_yaml_flat. -/
def stepLine (st : YState) (line : String) : YState :=
  match parseKeyLine line with
  | some kv =>
    if st.isMulti && lineHeadIsSpace line then contStep st line
    else
      let v := pyStrip kv.2
      if v = "|" then
        { result := flushInto st, currKey := some kv.1, currLines := [], isMulti := true }
      else
        { result := flushInto st, currKey := some kv.1,
          currLines := [unquoteVal v], isMulti := false }
  | none => contStep st line

/-- _parse_yaml_flat over an already-split list of lines. -/
def parseYamlLines (ls : List String) : List (String × String) :=
  flushInto (ls.foldl stepLine { result := [], currKey := none, currLines := [], isMulti := false })

/-- _parse_yaml_flat on the raw frontmatter body. -/
def parseYamlFlat (raw : String) : List (String × String) :=
  parseYamlLines ((splitNl raw.data).map String.mk)

/-- Does a maximal leading whitespace run contain a newline?  This decides
whether the pattern backslash-s-star newline can match here. -/
def wsRunHasNl (cs : List Char) : Bool :=
  (cs.takeWhile isPySpace).contains '\n'

/-- Closing delimiter of FRONTMATTER_RE: three dashes then whitespace ending
in a newline. -/
def closingOk (cs : List Char) : Bool :=
  match cs with
  | '-' :: '-' :: '-' :: rest => wsRunHasNl rest
  | _ => false

/-- Greedy backslash-s-star newline after the opening delimiter: consume the
leading whitespace run up to (and including) its last newline; none if the
run has no newline. -/
def openSplitGo : List Char → Option (List Char) → Option (List Char)
  | [], acc => acc
  | c :: rest, acc =>
    if isPySpace c then openSplitGo rest (if c = '\n' then some rest else acc)
    else acc

def openSplit (cs : List Char) : Option (List Char) := openSplitGo cs none

/-- Lazy group (.*? newline) followed by the closing delimiter: the shortest
prefix ending in a newline whose remainder starts the closing delimiter.
The accumulator holds the consumed chars reversed. -/
def findCloseGo : List Char → List Char → Option (List Char)
  | _, [] => none
  | acc, c :: rest =>
    if c = '\n' && closingOk rest then some (c :: acc).reverse
    else findCloseGo (c :: acc) rest

/-- FRONTMATTER_RE.match(text): anchored three dashes, whitespace through a
newline, the lazy body group ending in a newline, then the closing
delimiter.  Returns group(1). -/
def frontmatterRaw (text : String) : Option String :=
  match text.data with
  | '-' :: '-' :: '-' :: rest =>
    match openSplit rest with
    | some body => (findCloseGo [] body).map String.mk
    | none => none
  | _ => none

/-- parse_frontmatter: None when the block is absent, else the flat dict. -/
def parse_frontmatter (content : String) : Option (List (String × String)) :=
  (frontmatterRaw content).map parseYamlFlat

/-- The alternatives of STOP_PATTERNS, lowercase, with a flag for a trailing
word boundary.  The optional-s alternations are expanded. -/
def stopPhrases : List (List Char × Bool) :=
  [("use when".data, true), ("use before".data, true), ("use this".data, true),
   ("use proactively".data, true), ("recognizes:".data, false), ("recognize:".data, false),
   ("triggers:".data, false), ("trigger:".data, false), ("usage:".data, false),
   ("optional:".data, false), ("cancel:".data, false), ("activate when:".data, false)]

/-- Case-insensitive literal prefix match. -/
def startsWithCI (cs pat : List Char) : Bool :=
  (cs.take pat.length).map asciiLower == pat

/-- Word boundary after the first n characters: next char absent or not a
word char. -/
def boundaryOk (cs : List Char) (n : Nat) : Bool :=
  match cs.drop n with
  | [] => true
  | c :: _ => !(isWordChar c)

/-- One STOP_PATTERNS alternative matches here. -/
def phraseAt (cs : List Char) : Bool :=
  stopPhrases.any fun p => startsWithCI cs p.1 && (!p.2 || boundaryOk cs p.1.length)

/-- backslash-s-star then an alternative, starting at this suffix. -/
def wsThenPhrase : List Char → Bool
  | [] => false
  | c :: rest => phraseAt (c :: rest) || (isPySpace c && wsThenPhrase rest)

/-- In MULTILINE mode the caret matches at the string start and right after
each newline. -/
def lineStartB (cs : List Char) (p : Nat) : Bool :=
  p == 0 || cs[p - 1]? == some '\n'

/-- The anchored STOP_PATTERNS match attempt at position p. -/
def stopPred (cs : List Char) (p : Nat) : Bool :=
  lineStartB cs p && wsThenPhrase (cs.drop p)

/-- STOP_PATTERNS.search: the leftmost position where the anchored pattern
matches; re.search tries positions left to right. -/
def stopSearch (cs : List Char) : Option Nat :=
  (List.range (cs.length + 1)).find? (stopPred cs)

/-- Specification-level statement of an anchored match at p: p is a line
start (string start or right after a newline) and optional whitespace
followed by a trigger phrase begins there. -/
def SpecStop (cs : List Char) (p : Nat) : Prop :=
  (p = 0 ∨ cs[p - 1]? = some '\n') ∧ wsThenPhrase (cs.drop p) = true

/-- The tail of extract_catalog_description after truncation: collapse
whitespace, strip, and append a period when non-empty and not already
period-terminated. -/
def mkDescription (cs : List Char) : String :=
  let d := String.mk (pyStripData (collapseWs cs))
  if d.data = [] then d
  else if d.data.getLast? = some '.' then d
  else d ++ "."

/-- extract_catalog_description: truncate at the first STOP_PATTERNS match,
then normalize. -/
def extract_catalog_description (raw : String) : String :=
  match stopSearch raw.data with
  | some p => mkDescription (raw.data.take p)
  | none => mkDescription raw.data

/-- A file handed to a scanner: its path components relative to the
repository root, and its text content. -/
structure MdFile where
  parts : List String
  content : String
deriving DecidableEq

def pathStr (f : MdFile) : String := String.intercalate "/" f.parts

def fileName (f : MdFile) : String := f.parts.getLast?.getD ""

def parentName (f : MdFile) : String := f.parts.dropLast.getLast?.getD ""

/-- pathlib stem: the final component minus its suffix; the suffix is the
part from the last dot when that dot is neither leading nor trailing. -/
def pyStem (name : String) : String :=
  let cs := name.data
  match cs.reverse.findIdx? (fun c => c = '.') with
  | some j =>
    let i := cs.length - 1 - j
    if 0 < i ∧ i < cs.length - 1 then String.mk (cs.take i) else name
  | none => name

def strEndsWith (s suf : String) : Bool := suf.data.isSuffixOf s.data

/-- Python str.title() at the ASCII level: a letter is uppercased when the
previous character is not a letter, lowercased otherwise. -/
def pyTitleGo : List Char → Bool → List Char
  | [], _ => []
  | c :: rest, prevAlpha =>
    (if isAsciiAlpha c then (if prevAlpha then asciiLower c else asciiUpper c) else c)
      :: pyTitleGo rest (isAsciiAlpha c)

def pyTitle (s : String) : String := String.mk (pyTitleGo s.data false)

/-- The warning printed to stderr for a skipped file (the source formats the
path object; here the path is rendered relative to the repository root). -/
def warnMsg (f : MdFile) : String :=
  "WARNING: " ++ pathStr f ++ " has no frontmatter, skipping"

/-- The shared frontmatter gate of all scanners: the test
(not fm or "name" not in fm) succeeds exactly when this returns none
(an empty dict is falsy and has no name key). -/
def fmName? (f : MdFile) : Option (List (String × String) × String) :=
  match parse_frontmatter f.content with
  | none => none
  | some d =>
    match dictGet d "name" with
    | none => none
    | some n => some (d, n)

def descOf (d : List (String × String)) : String :=
  extract_catalog_description ((dictGet d "description").getD "")

structure Entry where
  name : String
  description : String
  path : String
deriving DecidableEq

structure AgentEntry where
  name : String
  description : String
  category : String
  path : String
deriving DecidableEq

/-- Lexicographic comparison of paths by components, as sorted() orders
pathlib paths. -/
def fileLe (a b : MdFile) : Bool := decide (a.parts ≤ b.parts)

def sortFiles (files : List MdFile) : List MdFile := files.mergeSort fileLe

def ruleEntry? (f : MdFile) : Option Entry :=
  (fmName? f).map fun p => ⟨p.2, descOf p.1, "../rules/" ++ fileName f⟩

def ruleWarn? (f : MdFile) : Option String :=
  if (fmName? f).isSome then none else some (warnMsg f)

/-- Loop body of discover_rules over the matched files in glob order:
entries and the warnings printed to stderr. -/
def rulesScan (files : List MdFile) : List Entry × List String :=
  (files.filterMap ruleEntry?, files.filterMap ruleWarn?)

def discover_rules (files : List MdFile) : List Entry × List String :=
  rulesScan (sortFiles files)

/-- _skill_category: the path components between the skills root and the
skill directory, joined with slashes. -/
def skillCategory (f : MdFile) : String :=
  String.intercalate "/" ((f.parts.drop 1).dropLast.dropLast)

def skillEntry? (f : MdFile) : Option (String × Entry) :=
  (fmName? f).map fun p => (skillCategory f, ⟨p.2, descOf p.1, "../" ++ pathStr f⟩)

def skillWarn? (f : MdFile) : Option String :=
  if (fmName? f).isSome then none else some (warnMsg f)

/-- dict.setdefault(cat, []).append(entry): appends to the existing group or
adds a new group at the end. -/
def addSkill : List (String × List Entry) → String → Entry → List (String × List Entry)
  | [], c, e => [(c, [e])]
  | (a, es) :: t, c, e =>
    if a = c then (a, es ++ [e]) :: t else (a, es) :: addSkill t c e

/-- Loop body of discover_skills. -/
def skillsScan (files : List MdFile) : List (String × List Entry) × List String :=
  (files.foldl (fun acc f =>
      match skillEntry? f with
      | some ce => addSkill acc ce.1 ce.2
      | none => acc) [],
   files.filterMap skillWarn?)

def discover_skills (files : List MdFile) : List (String × List Entry) × List String :=
  skillsScan (sortFiles files)

def agentEntry? (f : MdFile) : Option AgentEntry :=
  if f.parts.contains "_archive" then none
  else if strEndsWith (pyStem (fileName f)) "-reference" then none
  else if fileName f = "README.md" then none
  else (fmName? f).map fun p =>
    ⟨p.2, descOf p.1, pyTitle (parentName f), "../" ++ pathStr f⟩

/-- Loop body of discover_agents: the source prints no warning on a skipped
agent file, so the warnings stream is always empty. -/
def agentsScan (files : List MdFile) : List AgentEntry × List String :=
  (files.filterMap agentEntry?, [])

def discover_agents (files : List MdFile) : List AgentEntry × List String :=
  agentsScan (sortFiles files)

def customSkillEntry? (f : MdFile) : Option Entry :=
  (fmName? f).map fun p => ⟨p.2, descOf p.1, "../" ++ pathStr f⟩

/-- Loop body of discover_custom_skills: no warnings in the source. -/
def customSkillsScan (files : List MdFile) : List Entry × List String :=
  (files.filterMap customSkillEntry?, [])

def discover_custom_skills (files : List MdFile) : List Entry × List String :=
  customSkillsScan (sortFiles files)

def customAgentEntry? (f : MdFile) : Option Entry :=
  if fileName f = "README.md" then none
  else (fmName? f).map fun p => ⟨p.2, descOf p.1, "../" ++ pathStr f⟩

/-- Loop body of discover_custom_agents: no warnings in the source. -/
def customAgentsScan (files : List MdFile) : List Entry × List String :=
  (files.filterMap customAgentEntry?, [])

def discover_custom_agents (files : List MdFile) : List Entry × List String :=
  customAgentsScan (sortFiles files)

def SKILL_CATEGORY_ORDER : List String :=
  ["meta", "build/backend", "build/frontend", "workflow", "patterns"]

def SKILL_CATEGORY_DISPLAY : List (String × String) :=
  [("meta", "Meta"), ("build/backend", "Build — Backend"),
   ("build/frontend", "Build — Frontend"), ("workflow", "Workflow"),
   ("patterns", "Patterns")]

def displayName (ck : String) : String :=
  (dictGet SKILL_CATEGORY_DISPLAY ck).getD (pyTitle ck)

/-- skills_by_cat.get(cat_key, []). -/
def dictGetList (sbc : List (String × List Entry)) (k : String) : List Entry :=
  match sbc with
  | [] => []
  | (a, es) :: t => if a = k then es else dictGetList t k

/-- total_skills: sum over every category group. -/
def totalSkills (sbc : List (String × List Entry)) : Nat :=
  (sbc.map (fun p => p.2.length)).sum

def entryRow (e : Entry) : String :=
  "| [" ++ e.name ++ "](" ++ e.path ++ ") | " ++ e.description ++ " |"

def agentRow (a : AgentEntry) : String :=
  "| [" ++ a.name ++ "](" ++ a.path ++ ") | " ++ a.category ++ " | " ++ a.description ++ " |"

def tableHeader2 : List String :=
  ["| Name | Description |", "|------|------------|"]

def tableHeader3 : List String :=
  ["| Name | Category | Description |", "|------|----------|------------|"]

def headerLines : List String :=
  ["<!-- AUTO-GENERATED by scripts/generate-catalog.py — do not edit manually -->",
   "",
   "# Skill Library — Catalog",
   "",
   "> [README](../README.md) | **CATALOG** | [SKILLS-EXPLAINED](SKILLS-EXPLAINED.md) | [ARTICLE](ARTICLE.md)",
   "",
   "> [!TIP]",
   "> To install any skill or agent below, see [Quickstart](../README.md#quickstart) in the README.",
   ""]

def rulesSection (rules : List Entry) : List String :=
  ("## Rules (" ++ toString rules.length ++ ")") :: "" ::
  "*Always loaded — shape every interaction.*" :: "" ::
  (tableHeader2 ++ rules.map entryRow ++ ["", "---", ""])

def skillsHeader (sbc : List (String × List Entry)) : List String :=
  ("## Skills (" ++ toString (totalSkills sbc) ++ ")") :: "" ::
  "*Load on demand — teach Claude specialized workflows.*" :: [""]

/-- One iteration of the category loop: nothing when the category has no
entries, else a counted subsection heading and its table. -/
def catBlock (sbc : List (String × List Entry)) (ck : String) : List String :=
  let cs := dictGetList sbc ck
  if cs.isEmpty then []
  else ("### " ++ displayName ck ++ " (" ++ toString cs.length ++ ")") :: "" ::
    (tableHeader2 ++ cs.map entryRow ++ [""])

def skillsSection (sbc : List (String × List Entry)) : List String :=
  (SKILL_CATEGORY_ORDER.map (catBlock sbc)).flatten

def agentsSection (agents : List AgentEntry) : List String :=
  ("## Agents (" ++ toString agents.length ++ ")") :: "" ::
  "*Isolated subprocesses — zero parent context in, result out.*" :: "" ::
  (tableHeader3 ++ agents.map agentRow ++ ["", "---", ""])

def customSection (cskills cagents : List Entry) : List String :=
  if cskills.isEmpty && cagents.isEmpty then
    ["*Your project-specific skills and agents — not tracked by upstream. See [custom/README.md](../custom/README.md) to get started.*",
     ""]
  else
    (if cskills.isEmpty then [] else
      ("### Custom Skills (" ++ toString cskills.length ++ ")") :: "" ::
      (tableHeader2 ++ cskills.map entryRow ++ [""]))
    ++ (if cagents.isEmpty then [] else
      ("### Custom Agents (" ++ toString cagents.length ++ ")") :: "" ::
      (tableHeader2 ++ cagents.map entryRow ++ [""]))

/-- The lines list built by render_catalog from the five discovered
collections, in source order. -/
def renderCatalogLines (rules : List Entry) (sbc : List (String × List Entry))
    (agents : List AgentEntry) (cskills cagents : List Entry) : List String :=
  headerLines ++ rulesSection rules ++ skillsHeader sbc ++ skillsSection sbc
    ++ ["---", ""] ++ agentsSection agents ++ ["## Custom", ""]
    ++ customSection cskills cagents

def renderCatalogText (rules : List Entry) (sbc : List (String × List Entry))
    (agents : List AgentEntry) (cskills cagents : List Entry) : String :=
  joinNl (renderCatalogLines rules sbc agents cskills cagents)

/-- render_catalog as a function of the file trees handed to the five
scanners (each scanner sorts its own glob result). -/
def renderFromTree (rulesF skillsF agentsF cskillsF cagentsF : List MdFile) : String :=
  renderCatalogText (discover_rules rulesF).1 (discover_skills skillsF).1
    (discover_agents agentsF).1 (discover_custom_skills cskillsF).1
    (discover_custom_agents cagentsF).1

/-- Observable outcome of main(): exit code, the content written to the
target file if any, and the stdout/stderr lines. -/
structure RunResult where
  exitCode : Nat
  written : Option String
  stdoutLines : List String
  stderrLines : List String
deriving DecidableEq

/-- main(): in check mode read the existing target (None models
FileNotFoundError) and compare; in write mode write unconditionally. -/
def runMain (checkMode : Bool) (existing : Option String) (catalog : String) : RunResult :=
  if checkMode then
    match existing with
    | none =>
      { exitCode := 1, written := none, stdoutLines := [],
        stderrLines := ["ERROR: docs/CATALOG.md does not exist."] }
    | some e =>
      if e = catalog then
        { exitCode := 0, written := none,
          stdoutLines := ["CATALOG.md is up to date."], stderrLines := [] }
      else
        { exitCode := 1, written := none, stdoutLines := [],
          stderrLines :=
            ["ERROR: CATALOG.md is out of date. Run \x27python3 scripts/generate-catalog.py\x27 and commit."] }
  else
    { exitCode := 0, written := some catalog,
      stdoutLines := ["Generated docs/CATALOG.md"], stderrLines := [] }

/-- Heading test for the rendered document: a line opening a section or a
subsection. -/
def isHeadingData (cs : List Char) : Bool :=
  if cs.take 3 = ['#', '#', ' '] then true
  else if cs.take 4 = ['#', '#', '#', ' '] then true
  else false

def isHeadingLine (l : String) : Bool := isHeadingData l.data

/-- The heading lines the specification describes, for comparison with the
renderer: every section and subsection heading carries its live count,
except the Custom section heading. -/
def expectedHeadings (rules : List Entry) (sbc : List (String × List Entry))
    (agents : List AgentEntry) (cskills cagents : List Entry) : List String :=
  ("## Rules (" ++ toString rules.length ++ ")") ::
  ("## Skills (" ++ toString (totalSkills sbc) ++ ")") ::
  ((SKILL_CATEGORY_ORDER.map (fun ck =>
      if (dictGetList sbc ck).isEmpty then []
      else ["### " ++ displayName ck ++ " (" ++ toString (dictGetList sbc ck).length ++ ")"])).flatten
   ++ ("## Agents (" ++ toString agents.length ++ ")") :: "## Custom" ::
   (if cskills.isEmpty && cagents.isEmpty then []
    else (if cskills.isEmpty then [] else
            ["### Custom Skills (" ++ toString cskills.length ++ ")"])
      ++ (if cagents.isEmpty then [] else
            ["### Custom Agents (" ++ toString cagents.length ++ ")"])))

end Catalog

namespace Catalog

/-- C1 counterexample: on the single-line input the trigger phrase sits in
the middle of the only line, so the MULTILINE caret of STOP_PATTERNS never
matches and the normalizer returns the input unchanged, not the truncated
form the claim states. -/
theorem c1_counterexample :
    extract_catalog_description "Does X and Y. Use when Z happens."
      = "Does X and Y. Use when Z happens." ∧
    extract_catalog_description "Does X and Y. Use when Z happens."
      ≠ "Does X and Y." := by
  constructor
  · decide
  · decide

/-- C1 amended: the trigger clause is removed only when it starts a line;
for the single-line input the description is returned unchanged, while the
variant with the trigger clause on its own line is truncated to the first
line. -/
theorem c1_amended_line_start_only :
    extract_catalog_description "Does X and Y.\nUse when Z happens."
      = "Does X and Y." ∧
    extract_catalog_description "Does X and Y. Use when Z happens."
      = "Does X and Y. Use when Z happens." := by
  constructor
  · decide
  · decide

/-- C5: in check mode the target file is never written; the exit code is 0
exactly when the existing content equals the fresh render; a missing target
or a content mismatch exits 1 with a user-facing error on stderr. -/
theorem c5_check_mode (existing : Option String) (rendered : String) :
    (runMain true existing rendered).written = none ∧
    ((runMain true existing rendered).exitCode = 0 ↔ existing = some rendered) ∧
    (existing = none → (runMain true existing rendered).exitCode = 1 ∧
      (runMain true existing rendered).stderrLines ≠ []) ∧
    (∀ e, existing = some e → e ≠ rendered →
      (runMain true existing rendered).exitCode = 1 ∧
      (runMain true existing rendered).stderrLines ≠ []) := by
  cases existing with
  | none => simp [runMain]
  | some e =>
    by_cases h : e = rendered
    · subst h; simp [runMain]
    · simp [runMain, h]

/-- C5 witness: check mode with a missing target file exits 1 and writes
nothing. -/
theorem c5_check_mode_witness :
    (runMain true none "x").exitCode = 1 ∧ (runMain true none "x").written = none := by
  have h := c5_check_mode none "x"
  exact ⟨(h.2.2.1 rfl).1, h.1⟩

/-- C2 counterexample: an agent file without a metadata block contributes
zero entries but also zero warnings — the agent scanner skips silently,
against the claim that every scanner emits exactly one warning. -/
theorem c2_counterexample :
    fmName? ⟨["agents", "dev", "x.md"], "no frontmatter"⟩ = none ∧
    agentsScan [⟨["agents", "dev", "x.md"], "no frontmatter"⟩] = ([], []) := by
  constructor
  · decide
  · decide

/-- C2 amended: a file whose metadata block is absent or lacks the name key
contributes zero entries in every scanner and processing continues, but
only the rules and skills scanners emit exactly one diagnostic warning for
it; the agents and custom scanners skip such files silently. -/
theorem c2_amended_skip_behavior :
    (∀ f : MdFile, fmName? f = none →
      ruleEntry? f = none ∧ ruleWarn? f = some (warnMsg f) ∧
      skillEntry? f = none ∧ skillWarn? f = some (warnMsg f) ∧
      agentEntry? f = none ∧ customSkillEntry? f = none ∧
      customAgentEntry? f = none) ∧
    (∀ files : List MdFile, (agentsScan files).2 = [] ∧
      (customSkillsScan files).2 = [] ∧ (customAgentsScan files).2 = []) ∧
    (∀ (pre post : List MdFile) (f : MdFile), fmName? f = none →
      (rulesScan (pre ++ f :: post)).1 = (rulesScan (pre ++ post)).1 ∧
      (rulesScan (pre ++ f :: post)).2
        = (rulesScan pre).2 ++ warnMsg f :: (rulesScan post).2) := by
  refine ⟨?_, ?_, ?_⟩
  · intro f h
    refine ⟨?_, ?_, ?_, ?_, ?_, ?_, ?_⟩
    · simp [ruleEntry?, h]
    · simp [ruleWarn?, h]
    · simp [skillEntry?, h]
    · simp [skillWarn?, h]
    · by_cases h1 : "_archive" ∈ f.parts <;>
      by_cases h2 : strEndsWith (pyStem (fileName f)) "-reference" <;>
      by_cases h3 : fileName f = "README.md" <;>
      simp [agentEntry?, h1, h2, h3, h]
    · simp [customSkillEntry?, h]
    · by_cases h3 : fileName f = "README.md" <;> simp [customAgentEntry?, h3, h]
  · intro files; exact ⟨rfl, rfl, rfl⟩
  · intro pre post f h
    have he : ruleEntry? f = none := by simp [ruleEntry?, h]
    have hw : ruleWarn? f = some (warnMsg f) := by simp [ruleWarn?, h]
    constructor
    · simp [rulesScan, List.filterMap_append, List.filterMap_cons, he]
    · simp [rulesScan, List.filterMap_append, List.filterMap_cons, hw]

/-- C2 amended witness: a rules file with no metadata block yields no entry
and exactly its one warning. -/
theorem c2_amended_skip_behavior_witness :
    (rulesScan [⟨["rules", "broken.md"], "just text"⟩]).1 = [] ∧
    (rulesScan [⟨["rules", "broken.md"], "just text"⟩]).2
      = ["WARNING: rules/broken.md has no frontmatter, skipping"] := by
  have h := c2_amended_skip_behavior.2.2 [] [] ⟨["rules", "broken.md"], "just text"⟩ (by decide)
  constructor
  · exact h.1
  · exact h.2.trans (by decide)

/-- C3 counterexample: the source only excludes files under a directory
named _archive, so a file under a directory literally named archive, with
valid metadata, still becomes a catalog entry — against the claim. -/
theorem c3_counterexample :
    ("archive" ∈ (⟨["agents", "archive", "old-agent.md"],
        "---\nname: old-agent\n---\n"⟩ : MdFile).parts) ∧
    agentEntry? ⟨["agents", "archive", "old-agent.md"], "---\nname: old-agent\n---\n"⟩
      = some ⟨"old-agent", "", "Archive", "../agents/archive/old-agent.md"⟩ := by
  constructor
  · decide
  · decide

/-- C3 amended: the agent scanner excludes every file under a directory
named _archive (not archive), every file whose stem ends in -reference, and
every file named README.md; any other matched file with valid metadata
becomes one entry whose category is the title-cased name of its immediate
parent directory. -/
theorem c3_amended_agent_filters :
    (∀ f : MdFile, "_archive" ∈ f.parts → agentEntry? f = none) ∧
    (∀ f : MdFile, strEndsWith (pyStem (fileName f)) "-reference" = true →
      agentEntry? f = none) ∧
    (∀ f : MdFile, fileName f = "README.md" → agentEntry? f = none) ∧
    (∀ (f : MdFile) (d : List (String × String)) (n : String),
      "_archive" ∉ f.parts →
      strEndsWith (pyStem (fileName f)) "-reference" = false →
      fileName f ≠ "README.md" →
      parse_frontmatter f.content = some d →
      dictGet d "name" = some n →
      agentEntry? f
        = some ⟨n, descOf d, pyTitle (parentName f), "../" ++ pathStr f⟩) := by
  refine ⟨?_, ?_, ?_, ?_⟩
  · intro f h; simp [agentEntry?, h]
  · intro f h
    by_cases h1 : "_archive" ∈ f.parts <;> simp [agentEntry?, h1, h]
  · intro f h
    by_cases h1 : "_archive" ∈ f.parts <;>
    by_cases h2 : strEndsWith (pyStem (fileName f)) "-reference" <;>
    simp [agentEntry?, h1, h2, h]
  · intro f d n h1 h2 h3 h4 h5
    simp [agentEntry?, h1, h2, h3, fmName?, h4, h5]

/-- C3 amended witness: a regular agent file with valid metadata becomes an
entry categorized by its title-cased parent directory. -/
theorem c3_amended_agent_filters_witness :
    agentEntry? ⟨["agents", "development", "code-reviewer.md"],
        "---\nname: code-reviewer\n---\nBody"⟩
      = some ⟨"code-reviewer", "", "Development",
        "../agents/development/code-reviewer.md"⟩ := by
  have h := c3_amended_agent_filters.2.2.2
    ⟨["agents", "development", "code-reviewer.md"], "---\nname: code-reviewer\n---\nBody"⟩
    [("name", "code-reviewer")] "code-reviewer"
    (by decide) (by decide) (by decide) (by decide) (by decide)
  exact h.trans (by decide)

end Catalog

namespace Catalog

/-- Appending a new category group at the end does not change lookups of
other keys. -/
theorem dictGetList_append_ne (sbc : List (String × List Entry)) (c ck : String)
    (es : List Entry) (h : ck ≠ c) :
    dictGetList (sbc ++ [(c, es)]) ck = dictGetList sbc ck := by
  induction sbc with
  | nil =>
    have : ¬(c = ck) := fun he => h he.symm
    simp [dictGetList, this]
  | cons p t ih =>
    cases p with
    | mk a esa => by_cases ha : a = ck <;> simp [dictGetList, ha, ih]

/-- The category loop reads only the keys in the fixed display order, so a
category outside that order contributes no lines. -/
theorem skillsSection_append_notin (sbc : List (String × List Entry)) (c : String)
    (es : List Entry) (h : c ∉ SKILL_CATEGORY_ORDER) :
    skillsSection (sbc ++ [(c, es)]) = skillsSection sbc := by
  unfold skillsSection
  have hmap : SKILL_CATEGORY_ORDER.map (catBlock (sbc ++ [(c, es)]))
      = SKILL_CATEGORY_ORDER.map (catBlock sbc) := by
    apply List.map_congr_left
    intro ck hck
    have hne : ck ≠ c := fun he => h (he ▸ hck)
    unfold catBlock
    rw [dictGetList_append_ne sbc c ck es hne]
  rw [hmap]

theorem totalSkills_append (sbc : List (String × List Entry)) (c : String)
    (es : List Entry) :
    totalSkills (sbc ++ [(c, es)]) = totalSkills sbc + es.length := by
  simp [totalSkills]

theorem skills_heading_mem (rules : List Entry) (sbc : List (String × List Entry))
    (agents : List AgentEntry) (cskills cagents : List Entry) :
    ("## Skills (" ++ toString (totalSkills sbc) ++ ")")
      ∈ renderCatalogLines rules sbc agents cskills cagents := by
  simp [renderCatalogLines, skillsHeader]

/-- C10: entries of a category key outside the fixed display order are
counted in the Skills heading total but rendered in no subsection — the
skills body is unchanged by such a category group. -/
theorem c10_uncounted_category (rules : List Entry) (sbc : List (String × List Entry))
    (agents : List AgentEntry) (cskills cagents : List Entry)
    (c : String) (es : List Entry) (h : c ∉ SKILL_CATEGORY_ORDER) :
    ("## Skills (" ++ toString (totalSkills (sbc ++ [(c, es)])) ++ ")")
      ∈ renderCatalogLines rules (sbc ++ [(c, es)]) agents cskills cagents ∧
    totalSkills (sbc ++ [(c, es)]) = totalSkills sbc + es.length ∧
    skillsSection (sbc ++ [(c, es)]) = skillsSection sbc := by
  exact ⟨skills_heading_mem rules (sbc ++ [(c, es)]) agents cskills cagents,
    totalSkills_append sbc c es, skillsSection_append_notin sbc c es h⟩

/-- C10 witness at a concrete tree: a misc category with one entry raises
the Skills count to 2 but leaves the rendered skills body unchanged. -/
theorem c10_uncounted_category_witness :
    ("## Skills ("
        ++ toString (totalSkills ([("meta", [⟨"s", "d.", "p"⟩])] ++ [("misc", [⟨"m", "d.", "q"⟩])]))
        ++ ")")
      ∈ renderCatalogLines []
        ([("meta", [⟨"s", "d.", "p"⟩])] ++ [("misc", [⟨"m", "d.", "q"⟩])]) [] [] [] ∧
    totalSkills ([("meta", [⟨"s", "d.", "p"⟩])] ++ [("misc", [⟨"m", "d.", "q"⟩])])
      = totalSkills [("meta", [⟨"s", "d.", "p"⟩])] + 1 ∧
    skillsSection ([("meta", [⟨"s", "d.", "p"⟩])] ++ [("misc", [⟨"m", "d.", "q"⟩])])
      = skillsSection [("meta", [⟨"s", "d.", "p"⟩])] := by
  have h := c10_uncounted_category [] [("meta", [⟨"s", "d.", "p"⟩])] [] [] []
    "misc" [⟨"m", "d.", "q"⟩] (by decide)
  exact ⟨h.1, h.2.1, h.2.2⟩

/-- During a multiline value, every non-key line is stripped and appended
to the accumulator. -/
theorem foldMulti : ∀ (bs : List String), (∀ b ∈ bs, parseKeyLine b = none) →
    ∀ (res : List (String × String)) (k : String) (acc : List String),
    bs.foldl stepLine ⟨res, some k, acc, true⟩
      = ⟨res, some k, acc ++ bs.map pyStrip, true⟩ := by
  intro bs
  induction bs with
  | nil => intro _ res k acc; simp
  | cons b t ih =>
    intro h res k acc
    have hb : parseKeyLine b = none := h b (List.mem_cons_self b t)
    have hstep : stepLine ⟨res, some k, acc, true⟩ b
        = ⟨res, some k, acc ++ [pyStrip b], true⟩ := by
      simp [stepLine, hb, contStep]
    simp only [List.foldl_cons, hstep]
    rw [ih (fun x hx => h x (List.mem_cons_of_mem b hx)) res k (acc ++ [pyStrip b])]
    simp

/-- C7: a key with the multiline marker collects the following non-key
lines, each stripped, joined with newlines and trimmed — both when the
block runs to the end of the input and when a further key line ends it. -/
theorem c7_multiline_value (bs : List String) (h : ∀ b ∈ bs, parseKeyLine b = none) :
    dictGet (parseYamlLines ("k: |" :: bs)) "k"
      = some (flushLines (bs.map pyStrip)) ∧
    dictGet (parseYamlLines ("k: |" :: (bs ++ ["zz: 0"]))) "k"
      = some (flushLines (bs.map pyStrip)) := by
  have h0 : stepLine ⟨[], none, [], false⟩ "k: |" = ⟨[], some "k", [], true⟩ := by decide
  constructor
  · unfold parseYamlLines
    simp only [List.foldl_cons, h0]
    rw [foldMulti bs h [] "k" []]
    simp [flushInto, dictSet, dictGet]
  · unfold parseYamlLines
    simp only [List.foldl_cons, h0]
    rw [List.foldl_append, foldMulti bs h [] "k" []]
    have hk : parseKeyLine "zz: 0" = some ("zz", "0") := by decide
    have hsp : lineHeadIsSpace "zz: 0" = false := by decide
    have hps : pyStrip "0" = "0" := by decide
    have hne : ("0" : String) ≠ "|" := by decide
    have hkz : ("k" : String) ≠ "zz" := by decide
    simp [stepLine, hk, hsp, hps, hne, contStep, flushInto, dictSet, dictGet, hkz]

/-- C7 witness: the multiline body lines a, indented b, c parse to the
joined stripped value. -/
theorem c7_multiline_value_witness :
    dictGet (parseYamlFlat "k: |\na\n  b\nc") "k" = some "a\nb\nc" := by
  have h := (c7_multiline_value ["a", "  b", "c"] (by decide)).1
  have hsplit : parseYamlFlat "k: |\na\n  b\nc"
      = parseYamlLines ("k: |" :: ["a", "  b", "c"]) := by decide
  rw [hsplit, h]
  decide

end Catalog

namespace Catalog

theorem takeWhile_all {p : Char → Bool} :
    ∀ {l : List Char}, (∀ c ∈ l, p c = true) → l.takeWhile p = l := by
  intro l h
  exact List.takeWhile_eq_self_iff.mpr h

theorem quoted_data (s : String) :
    ("\"" ++ s ++ "\"").data = '"' :: (s.data ++ ['"']) := by
  rw [String.data_append, String.data_append]
  rfl

theorem parseKeyLine_quoted (s : String) (hNL : '\n' ∉ s.data) :
    parseKeyLine ("k: \"" ++ s ++ "\"") = some ("k", "\"" ++ s ++ "\"") := by
  have hdata : ("k: \"" ++ s ++ "\"").data = 'k' :: ':' :: ' ' :: '"' :: (s.data ++ ['"']) := by
    rw [String.data_append, String.data_append]
    rfl
  have htail : (('"' :: (s.data ++ ['"'])).takeWhile (fun d => d != '\n'))
      = '"' :: (s.data ++ ['"']) := by
    apply takeWhile_all
    intro c hc
    rcases List.mem_cons.mp hc with h1 | h1
    · subst h1; decide
    · rcases List.mem_append.mp h1 with h2 | h2
      · have : c ≠ '\n' := fun he => hNL (he ▸ h2)
        simp [this]
      · simp at h2; subst h2; decide
  unfold parseKeyLine
  rw [hdata]
  simp only [List.takeWhile_cons, List.dropWhile_cons]
  simp only [show isWordChar 'k' = true from by decide, if_true,
    show (isWordChar ':' || (':' == '-')) = false from by decide,
    show (isWordChar ' ' || (' ' == '-')) = false from by decide,
    show isPySpace ':' = false from by decide,
    show isPySpace ' ' = true from by decide,
    show isPySpace '"' = false from by decide]
  rw [if_neg, if_neg]
  rotate_left
  · decide
  · decide
  rw [List.dropWhile_cons]
  rw [if_neg (by decide)]
  show some ((⟨['k']⟩ : String), (⟨List.takeWhile (fun d => d != '\n')
      (List.dropWhile isPySpace (' ' :: '"' :: (s.data ++ ['"'])))⟩ : String))
    = some ("k", "\"" ++ s ++ "\"")
  rw [List.dropWhile_cons, if_pos (by decide), List.dropWhile_cons, if_neg (by decide), htail]
  rfl

theorem pyStrip_quoted (s : String) :
    pyStrip ("\"" ++ s ++ "\"") = "\"" ++ s ++ "\"" := by
  apply String.ext
  show pyStripData ("\"" ++ s ++ "\"").data = ("\"" ++ s ++ "\"").data
  rw [quoted_data]
  unfold pyStripData
  have h1 : List.dropWhile isPySpace ('"' :: (s.data ++ ['"']))
      = '"' :: (s.data ++ ['"']) := by
    rw [List.dropWhile_cons, if_neg (by decide)]
  rw [h1]
  have h2 : ('"' :: (s.data ++ ['"'])).reverse = '"' :: (s.data.reverse ++ ['"']) := by
    rw [show ('"' :: (s.data ++ ['"'])) = ('"' :: s.data) ++ ['"'] by simp]
    rw [List.reverse_append, List.reverse_cons]
    simp
  rw [h2]
  have h3 : List.dropWhile isPySpace ('"' :: (s.data.reverse ++ ['"']))
      = '"' :: (s.data.reverse ++ ['"']) := by
    rw [List.dropWhile_cons, if_neg (by decide)]
  rw [h3, show ('"' :: (s.data.reverse ++ ['"'])) = ('"' :: s.data.reverse) ++ ['"'] by simp]
  rw [List.reverse_append, List.reverse_cons]
  simp

theorem unquoteVal_quoted (s : String) :
    unquoteVal ("\"" ++ s ++ "\"")
      = pyReplace (pyReplace (pyReplace (pyReplace s "\\\\n" "\n") "\\n" "\n")
          "\\\\\"" "\"") "\\\"" "\"" := by
  have hlast : ('"' :: (s.data ++ ['"'])).getLast? = some '"' := by
    rw [show ('"' :: (s.data ++ ['"'])) = ('"' :: s.data) ++ ['"'] by simp]
    exact List.getLast?_concat _
  simp only [unquoteVal, quoted_data, List.head?_cons, hlast]
  rw [if_pos (by refine ⟨by simp, Or.inl trivial, trivial⟩)]
  have hinner : (('"' :: (s.data ++ ['"'])).drop 1).dropLast = s.data := by
    simp [List.dropLast_concat]
  rw [hinner]

/-- C6: a quoted value is unescaped by exactly the four replacements in
source order — doubled backslash-n to newline, remaining backslash-n to
newline, doubled backslash-quote to quote, remaining backslash-quote to
quote — and then stored (the final strip is the flush step shared by all
values). -/
theorem c6_quoted_unescape (s : String) (hNL : '\n' ∉ s.data) :
    dictGet (parseYamlLines ["k: \"" ++ s ++ "\""]) "k"
      = some (pyStrip (pyReplace (pyReplace (pyReplace (pyReplace s "\\\\n" "\n")
          "\\n" "\n") "\\\\\"" "\"") "\\\"" "\"")) := by
  have hkey := parseKeyLine_quoted s hNL
  have hne : ("\"" ++ s ++ "\"") ≠ "|" := by
    intro he
    have := congrArg String.data he
    rw [quoted_data] at this
    simp at this
  unfold parseYamlLines
  simp only [List.foldl_cons, List.foldl_nil]
  rw [stepLine, hkey]
  simp only []
  rw [pyStrip_quoted]
  rw [if_neg (by simp [lineHeadIsSpace])]
  rw [if_neg hne]
  simp only [flushInto, dictSet, dictGet]
  rw [unquoteVal_quoted]
  have : flushLines [pyReplace (pyReplace (pyReplace (pyReplace s "\\\\n" "\n")
      "\\n" "\n") "\\\\\"" "\"") "\\\"" "\""]
      = pyStrip (pyReplace (pyReplace (pyReplace (pyReplace s "\\\\n" "\n")
      "\\n" "\n") "\\\\\"" "\"") "\\\"" "\"") := rfl
  simp [this]

/-- C6 witness: the quoted value line1 backslash-n line2 parses to line1,
newline, line2; a doubled backslash-n also resolves to a real newline and
the parsed value keeps no backslash at all. -/
theorem c6_quoted_unescape_witness :
    dictGet (parseYamlLines ["k: \"" ++ "line1\\nline2" ++ "\""]) "k"
      = some "line1\nline2" ∧
    dictGet (parseYamlLines ["k: \"" ++ "a\\\\nb" ++ "\""]) "k" = some "a\nb" ∧
    '\\' ∉ ("a\nb" : String).data := by
  have h1 := c6_quoted_unescape "line1\\nline2" (by decide)
  have h2 := c6_quoted_unescape "a\\\\nb" (by decide)
  exact ⟨h1.trans (by decide), h2.trans (by decide), by decide⟩

end Catalog

namespace Catalog

/-- find? on a strictly increasing list returns the first satisfying
element: everything smaller in the list fails the predicate. -/
theorem find?_first_of_pairwise {p : Nat → Bool} :
    ∀ (l : List Nat) (a : Nat), l.Pairwise (· < ·) → l.find? p = some a →
    ∀ b ∈ l, b < a → p b = false := by
  intro l
  induction l with
  | nil => intro a _ h; simp at h
  | cons x t ih =>
    intro a hpw hf b hb hba
    by_cases hx : p x
    · rw [List.find?_cons_of_pos _ hx] at hf
      injection hf with hf
      subst hf
      rcases List.mem_cons.mp hb with rfl | hbt
      · omega
      · have := (List.pairwise_cons.mp hpw).1 b hbt
        omega
    · rw [List.find?_cons_of_neg _ hx] at hf
      rcases List.mem_cons.mp hb with rfl | hbt
      · exact Bool.eq_false_iff.mpr hx
      · exact ih a (List.pairwise_cons.mp hpw).2 hf b hbt hba

theorem stopPred_iff (cs : List Char) (q : Nat) :
    stopPred cs q = true ↔ SpecStop cs q := by
  simp [stopPred, SpecStop, lineStartB, Bool.and_eq_true, Bool.or_eq_true, beq_iff_eq]

theorem mkDescription_period (cs : List Char) :
    mkDescription cs = "" ∨ (mkDescription cs).data.getLast? = some '.' := by
  unfold mkDescription
  set d := String.mk (pyStripData (collapseWs cs)) with hd
  by_cases h1 : d.data = []
  · left
    rw [if_pos h1]
    exact String.ext h1
  · rw [if_neg h1]
    by_cases h2 : d.data.getLast? = some '.'
    · right
      rw [if_pos h2]
      exact h2
    · right
      rw [if_neg h2]
      show (d ++ ".").data.getLast? = some '.'
      rw [String.data_append, show ("." : String).data = ['.'] from rfl]
      exact List.getLast?_concat _

/-- C8: the normalizer truncates exactly at the leftmost position that is a
line start (string start or just after a newline) followed by optional
whitespace and a trigger phrase, case-insensitively; the result is built
from everything strictly before that position, and the final output is
empty or period-terminated. -/
theorem c8_stop_truncation (raw : String) :
    (∀ p, stopSearch raw.data = some p →
      SpecStop raw.data p ∧ (∀ q, q < p → ¬ SpecStop raw.data q) ∧
      extract_catalog_description raw = mkDescription (raw.data.take p)) ∧
    (stopSearch raw.data = none →
      (∀ q, ¬ SpecStop raw.data q) ∧
      extract_catalog_description raw = mkDescription raw.data) ∧
    (extract_catalog_description raw = "" ∨
      (extract_catalog_description raw).data.getLast? = some '.') := by
  refine ⟨?_, ?_, ?_⟩
  · intro p hp
    refine ⟨(stopPred_iff _ _).mp (List.find?_some hp), ?_, ?_⟩
    · intro q hq hSpec
      have hqmem : q ∈ List.range (raw.data.length + 1) := by
        have hpmem := List.mem_of_find?_eq_some hp
        rw [List.mem_range] at hpmem ⊢
        omega
      have := find?_first_of_pairwise (List.range (raw.data.length + 1)) p
        (List.pairwise_lt_range _) hp q hqmem hq
      rw [(stopPred_iff _ _).mpr hSpec] at this
      exact Bool.true_eq_false.mp this
    · simp [extract_catalog_description, hp]
  · intro hn
    constructor
    · intro q hSpec
      by_cases hq : q ≤ raw.data.length
      · have hqmem : q ∈ List.range (raw.data.length + 1) := by
          rw [List.mem_range]; omega
        have := List.find?_eq_none.mp hn q hqmem
        exact this ((stopPred_iff _ _).mpr hSpec)
      · have hdrop : raw.data.drop q = [] :=
          List.drop_eq_nil_of_le (by omega)
        have := hSpec.2
        rw [hdrop] at this
        simp [wsThenPhrase] at this
    · simp [extract_catalog_description, hn]
  · cases hss : stopSearch raw.data with
    | none =>
      simp only [extract_catalog_description, hss]
      exact mkDescription_period _
    | some p =>
      simp only [extract_catalog_description, hss]
      exact mkDescription_period _

/-- C8 witness: in a two-line description the trigger line is found exactly
at the start of the second line and everything before it is kept. -/
theorem c8_stop_truncation_witness :
    SpecStop ("Summary line.\nUse when testing.").data 14 ∧
    extract_catalog_description "Summary line.\nUse when testing."
      = "Summary line." := by
  have h := (c8_stop_truncation "Summary line.\nUse when testing.").1 14 (by decide)
  exact ⟨h.1, h.2.2.trans (by decide)⟩

/-- Two sorted lists that are permutations of each other and have pairwise
distinct sort keys are equal. -/
theorem sorted_perm_eq {α β : Type} [LinearOrder β] (key : α → β) :
    ∀ {l m : List α}, l.Perm m →
      l.Pairwise (fun a b => key a ≤ key b) →
      m.Pairwise (fun a b => key a ≤ key b) →
      (l.map key).Nodup → l = m := by
  intro l
  induction l with
  | nil => intro m hp _ _ _; exact hp.nil_eq
  | cons a t ih =>
    intro m hp hsl hsm hnd
    cases m with
    | nil => exact absurd hp.symm.nil_eq (by simp)
    | cons b u =>
      have hnd' := hnd
      rw [List.map_cons, List.nodup_cons] at hnd'
      obtain ⟨hka, hndt⟩ := hnd'
      have hab : a = b := by
        by_contra hne
        have ha_mem : a ∈ b :: u := hp.subset (List.mem_cons_self a t)
        have ha_u : a ∈ u := by
          rcases List.mem_cons.mp ha_mem with h | h
          · exact absurd h hne
          · exact h
        have hb_mem : b ∈ a :: t := hp.symm.subset (List.mem_cons_self b u)
        have hb_t : b ∈ t := by
          rcases List.mem_cons.mp hb_mem with h | h
          · exact absurd h.symm hne
          · exact h
        have h1 : key a ≤ key b := (List.pairwise_cons.mp hsl).1 b hb_t
        have h2 : key b ≤ key a := (List.pairwise_cons.mp hsm).1 a ha_u
        have hk : key a = key b := le_antisymm h1 h2
        exact hka (hk ▸ List.mem_map_of_mem key hb_t)
      subst hab
      congr 1
      exact ih hp.cons_inv (List.pairwise_cons.mp hsl).2
        (List.pairwise_cons.mp hsm).2 hndt

theorem fileLe_trans : ∀ a b c : MdFile,
    fileLe a b = true → fileLe b c = true → fileLe a c = true := by
  intro a b c h1 h2
  simp only [fileLe, decide_eq_true_eq] at h1 h2 ⊢
  exact le_trans h1 h2

theorem fileLe_total : ∀ a b : MdFile, (fileLe a b || fileLe b a) = true := by
  intro a b
  simp only [fileLe, Bool.or_eq_true, decide_eq_true_eq]
  exact le_total a.parts b.parts

/-- Sorting by path is invariant under permutation of the input when the
paths are pairwise distinct. -/
theorem sortFiles_perm_eq (l l' : List MdFile) (hp : l.Perm l')
    (hnd : (l.map MdFile.parts).Nodup) : sortFiles l = sortFiles l' := by
  have hperm : (sortFiles l).Perm (sortFiles l') :=
    (List.mergeSort_perm l fileLe).trans
      (hp.trans (List.mergeSort_perm l' fileLe).symm)
  have hsl : (sortFiles l).Pairwise (fun a b : MdFile => a.parts ≤ b.parts) :=
    (List.sorted_mergeSort fileLe_trans fileLe_total l).imp
      (fun h => by simpa [fileLe] using h)
  have hsl' : (sortFiles l').Pairwise (fun a b : MdFile => a.parts ≤ b.parts) :=
    (List.sorted_mergeSort fileLe_trans fileLe_total l').imp
      (fun h => by simpa [fileLe] using h)
  have hnds : ((sortFiles l).map MdFile.parts).Nodup :=
    (((List.mergeSort_perm l fileLe).map MdFile.parts).symm).nodup hnd
  exact sorted_perm_eq (fun f : MdFile => f.parts) hperm hsl hsl' hnds

/-- C9: the rendered catalog is invariant under any reordering of the files
each scanner receives, provided file paths are distinct — output depends
only on the sorted traversal and file contents. -/
theorem c9_determinism (r r' s s' a a' cs cs' ca ca' : List MdFile)
    (hr : r.Perm r') (hs : s.Perm s') (ha : a.Perm a')
    (hcs : cs.Perm cs') (hca : ca.Perm ca')
    (nr : (r.map MdFile.parts).Nodup) (ns : (s.map MdFile.parts).Nodup)
    (na : (a.map MdFile.parts).Nodup) (ncs : (cs.map MdFile.parts).Nodup)
    (nca : (ca.map MdFile.parts).Nodup) :
    renderFromTree r s a cs ca = renderFromTree r' s' a' cs' ca' := by
  unfold renderFromTree discover_rules discover_skills discover_agents
    discover_custom_skills discover_custom_agents
  rw [sortFiles_perm_eq r r' hr nr, sortFiles_perm_eq s s' hs ns,
    sortFiles_perm_eq a a' ha na, sortFiles_perm_eq cs cs' hcs ncs,
    sortFiles_perm_eq ca ca' hca nca]

/-- C9 witness: swapping two rule files yields the identical document. -/
theorem c9_determinism_witness :
    renderFromTree [⟨["rules", "a.md"], "---\nname: a\n---\n"⟩,
        ⟨["rules", "b.md"], "x"⟩] [] [] [] []
      = renderFromTree [⟨["rules", "b.md"], "x"⟩,
        ⟨["rules", "a.md"], "---\nname: a\n---\n"⟩] [] [] [] [] := by
  exact c9_determinism _ _ _ _ _ _ _ _ _ _
    (List.Perm.swap (⟨["rules", "b.md"], "x"⟩ : MdFile)
      (⟨["rules", "a.md"], "---\nname: a\n---\n"⟩ : MdFile) [])
    (List.Perm.refl []) (List.Perm.refl []) (List.Perm.refl []) (List.Perm.refl [])
    (by decide) (by decide) (by decide) (by decide) (by decide)

end Catalog

namespace Catalog

theorem take_append_left (n : Nat) (l m : List Char) (h : n ≤ l.length) :
    (l ++ m).take n = l.take n := by
  rw [List.take_append_eq_append_take, show n - l.length = 0 by omega,
    List.take_zero, List.append_nil]

theorem isHeadingData_cons_ne {c : Char} (h : c ≠ '#') (r : List Char) :
    isHeadingData (c :: r) = false := by
  have hA : ¬((c :: r).take 3 = ['#', '#', ' ']) := by
    rw [List.take_succ_cons]
    intro he
    exact h (List.cons.injEq _ _ _ _ ▸ he).1
  have hB : ¬((c :: r).take 4 = ['#', '#', '#', ' ']) := by
    rw [List.take_succ_cons]
    intro he
    exact h (List.cons.injEq _ _ _ _ ▸ he).1
  simp [isHeadingData, hA, hB]
  exact ⟨fun hc => absurd hc h, fun hc => absurd hc h⟩

/-- A heading line stays a heading line under appending: the test only
inspects the first characters. -/
theorem isHeadingLine_append (s y : String) (h : isHeadingLine s = true) :
    isHeadingLine (s ++ y) = true := by
  unfold isHeadingLine isHeadingData at h ⊢
  rw [String.data_append]
  by_cases h3 : s.data.take 3 = ['#', '#', ' ']
  · have hlen : 3 ≤ s.data.length := by
      have := congrArg List.length h3
      simp only [List.length_take, List.length_cons, List.length_nil] at this
      omega
    rw [take_append_left 3 _ _ hlen, h3]
    simp
  · rw [if_neg h3] at h
    by_cases h4 : s.data.take 4 = ['#', '#', '#', ' ']
    · have hlen4 : 4 ≤ s.data.length := by
        have := congrArg List.length h4
        simp only [List.length_take, List.length_cons, List.length_nil] at this
        omega
      rw [take_append_left 3 _ _ (by omega), take_append_left 4 _ _ hlen4]
      rw [if_neg h3, if_pos h4]
    · rw [if_neg h4] at h
      exact absurd h (by simp)

theorem entryRow_not_heading (e : Entry) : isHeadingLine (entryRow e) = false := by
  unfold isHeadingLine entryRow
  simp only [String.data_append, List.cons_append, List.nil_append, List.append_assoc]
  exact isHeadingData_cons_ne (by decide) _

theorem agentRow_not_heading (a : AgentEntry) : isHeadingLine (agentRow a) = false := by
  unfold isHeadingLine agentRow
  simp only [String.data_append, List.cons_append, List.nil_append, List.append_assoc]
  exact isHeadingData_cons_ne (by decide) _

theorem filter_entryRows (l : List Entry) :
    (l.map entryRow).filter isHeadingLine = [] := by
  induction l with
  | nil => rfl
  | cons e t ih => simp [List.filter_cons, entryRow_not_heading, ih]

theorem filter_agentRows (l : List AgentEntry) :
    (l.map agentRow).filter isHeadingLine = [] := by
  induction l with
  | nil => rfl
  | cons a t ih => simp [List.filter_cons, agentRow_not_heading, ih]

theorem rulesSection_filter (rules : List Entry) :
    (rulesSection rules).filter isHeadingLine
      = ["## Rules (" ++ toString rules.length ++ ")"] := by
  have hh : isHeadingLine ("## Rules (" ++ toString rules.length ++ ")") = true :=
    isHeadingLine_append _ _ (isHeadingLine_append _ _ (by decide))
  simp [rulesSection, tableHeader2, List.filter_cons, List.filter_append, hh,
    filter_entryRows,
    show isHeadingLine "" = false from by decide,
    show isHeadingLine "*Always loaded — shape every interaction.*" = false from by decide,
    show isHeadingLine "| Name | Description |" = false from by decide,
    show isHeadingLine "|------|------------|" = false from by decide,
    show isHeadingLine "---" = false from by decide]

theorem skillsHeader_filter (sbc : List (String × List Entry)) :
    (skillsHeader sbc).filter isHeadingLine
      = ["## Skills (" ++ toString (totalSkills sbc) ++ ")"] := by
  have hh : isHeadingLine ("## Skills (" ++ toString (totalSkills sbc) ++ ")") = true :=
    isHeadingLine_append _ _ (isHeadingLine_append _ _ (by decide))
  simp [skillsHeader, List.filter_cons, hh,
    show isHeadingLine "" = false from by decide,
    show isHeadingLine "*Load on demand — teach Claude specialized workflows.*" = false
      from by decide]

theorem catBlock_filter (sbc : List (String × List Entry)) (ck : String) :
    (catBlock sbc ck).filter isHeadingLine
      = (if (dictGetList sbc ck).isEmpty then []
         else ["### " ++ displayName ck ++ " ("
           ++ toString (dictGetList sbc ck).length ++ ")"]) := by
  unfold catBlock
  by_cases h : (dictGetList sbc ck).isEmpty
  · simp [h]
  · rw [if_neg h, if_neg h]
    have hh : isHeadingLine ("### " ++ displayName ck ++ " ("
        ++ toString (dictGetList sbc ck).length ++ ")") = true :=
      isHeadingLine_append _ _ (isHeadingLine_append _ _
        (isHeadingLine_append _ _ (isHeadingLine_append _ _ (by decide))))
    simp [tableHeader2, List.filter_cons, List.filter_append, hh, filter_entryRows,
      show isHeadingLine "" = false from by decide,
      show isHeadingLine "| Name | Description |" = false from by decide,
      show isHeadingLine "|------|------------|" = false from by decide]

theorem skillsSection_filter (sbc : List (String × List Entry)) :
    (skillsSection sbc).filter isHeadingLine
      = (SKILL_CATEGORY_ORDER.map (fun ck =>
          if (dictGetList sbc ck).isEmpty then []
          else ["### " ++ displayName ck ++ " ("
            ++ toString (dictGetList sbc ck).length ++ ")"])).flatten := by
  unfold skillsSection SKILL_CATEGORY_ORDER
  simp only [List.map_cons, List.map_nil, List.flatten_cons, List.flatten_nil,
    List.filter_append, catBlock_filter, List.filter_nil, List.append_nil]

theorem agentsSection_filter (agents : List AgentEntry) :
    (agentsSection agents).filter isHeadingLine
      = ["## Agents (" ++ toString agents.length ++ ")"] := by
  have hh : isHeadingLine ("## Agents (" ++ toString agents.length ++ ")") = true :=
    isHeadingLine_append _ _ (isHeadingLine_append _ _ (by decide))
  simp [agentsSection, tableHeader3, List.filter_cons, List.filter_append, hh,
    filter_agentRows,
    show isHeadingLine "" = false from by decide,
    show isHeadingLine "*Isolated subprocesses — zero parent context in, result out.*" = false
      from by decide,
    show isHeadingLine "| Name | Category | Description |" = false from by decide,
    show isHeadingLine "|------|----------|------------|" = false from by decide,
    show isHeadingLine "---" = false from by decide]

theorem customSection_filter (cskills cagents : List Entry) :
    (customSection cskills cagents).filter isHeadingLine
      = (if cskills.isEmpty && cagents.isEmpty then []
         else (if cskills.isEmpty then [] else
                 ["### Custom Skills (" ++ toString cskills.length ++ ")"])
           ++ (if cagents.isEmpty then [] else
                 ["### Custom Agents (" ++ toString cagents.length ++ ")"])) := by
  have hhs : isHeadingLine ("### Custom Skills (" ++ toString cskills.length ++ ")") = true :=
    isHeadingLine_append _ _ (isHeadingLine_append _ _ (by decide))
  have hha : isHeadingLine ("### Custom Agents (" ++ toString cagents.length ++ ")") = true :=
    isHeadingLine_append _ _ (isHeadingLine_append _ _ (by decide))
  unfold customSection
  by_cases h1 : cskills.isEmpty <;> by_cases h2 : cagents.isEmpty <;>
    simp [h1, h2, tableHeader2, List.filter_cons, List.filter_append, hhs, hha,
      filter_entryRows,
      show isHeadingLine "" = false from by decide,
      show isHeadingLine "*Your project-specific skills and agents — not tracked by upstream. See [custom/README.md](../custom/README.md) to get started.*" = false
        from by decide,
      show isHeadingLine "| Name | Description |" = false from by decide,
      show isHeadingLine "|------|------------|" = false from by decide]

/-- C4 counterexample: the rendered document contains the Custom section
heading, which is a section heading carrying no count at all (it has not
even a parenthesis). -/
theorem c4_counterexample :
    "## Custom" ∈ renderCatalogLines [] [] [] [] [] ∧
    isHeadingLine "## Custom" = true ∧
    '(' ∉ ("## Custom" : String).data := by
  refine ⟨by decide, by decide, by decide⟩

/-- C4 amended: the section and subsection headings of the rendered
document are exactly the Rules, Skills, per-category, Agents and Custom
headings, each carrying the live count of its entries — except the Custom
section heading, which carries no count. -/
theorem c4_amended_heading_counts (rules : List Entry)
    (sbc : List (String × List Entry)) (agents : List AgentEntry)
    (cskills cagents : List Entry) :
    (renderCatalogLines rules sbc agents cskills cagents).filter isHeadingLine
      = expectedHeadings rules sbc agents cskills cagents := by
  unfold renderCatalogLines expectedHeadings
  simp only [List.filter_append, rulesSection_filter, skillsHeader_filter,
    skillsSection_filter, agentsSection_filter, customSection_filter,
    show headerLines.filter isHeadingLine = [] from by decide,
    show (["---", ""] : List String).filter isHeadingLine = [] from by decide,
    show (["## Custom", ""] : List String).filter isHeadingLine = ["## Custom"]
      from by decide]
  simp [List.append_assoc]

end Catalog
